import Mathlib

/-!
Verification of the go-agent task planning and execution engine.

This file embeds, as executable Lean definitions, the parts of the
repository needed to settle the frozen claims:

* `pkg/models` (`SubTask`, task states and type tags),
* `pkg/execution/executor.go` (`ExecuteTask`, `ExecuteBatch`,
  `CanParallelize`, `analyzeTaskDependencies`),
* `pkg/planning/planner.go` (`Plan`, `OptimizePlan`,
  `parsePlanningResult`, `inferTaskType`, `buildDependencyMap`),
* `pkg/planning/intelligent_planner.go` (`Plan`,
  `parsePlanningResponse`, `createDefaultPlan`).

External collaborators (LLM provider, tool registry, ledger appends,
`encoding/json`, `uuid`, wall clock) are modelled as explicit parameters:
call outcomes become `Except`/`Option` values, fresh uuids become a
`Nat → String` generator, and `time.Now()` becomes a `Nat` argument.
Ledger appends that the Go code fires and forgets (they influence neither
the task record nor the returned error) are not modelled; the appends
whose success the code branches on are.
-/

namespace GoAgent

/-- `models.SubTask`.  Go's `TaskState` is a string type (constants
`"wait"`, `"running"`, `"success"`, `"fail"`), so `state` is a `String`
here as well; the zero value is the empty string, exactly as in Go.
The open-ended `Metadata` map is irrelevant to every claim and omitted. -/
structure SubTask where
  id : String := ""
  name : String := ""
  description : String := ""
  process : String := ""
  type_ : String := ""
  dependent : String := ""
  outputFile : String := ""
  state : String := ""
  stateMsg : String := ""
  recordId : String := ""
  createdAt : Nat := 0
  updatedAt : Nat := 0
deriving Repr, DecidableEq

/-! ## Dependency resolver (`analyzeTaskDependencies`, executor.go:362-417) -/

/-- Lookup in the resolver's `dependencyMap`.  The Go code inserts
`dependencyMap[task.ID] = []string{task.Dependent}` for each task with a
non-empty `Dependent`, in list order, so a later task with the same id
overwrites an earlier one: the lookup returns the `Dependent` of the last
task carrying this id with a non-empty `Dependent`, if any. -/
def depLookup (tasks : List SubTask) (i : String) : Option String :=
  ((tasks.filter (fun t => decide (t.id = i ∧ t.dependent ≠ ""))).getLast?).map
    (fun t => t.dependent)

/-- The `canExecute` check of one scan pass: a task is eligible when its
entry in `dependencyMap` is absent, or every listed dependency (there is
at most one) is already processed. -/
def canExecute (tasks : List SubTask) (processed : List String) (t : SubTask) : Bool :=
  match depLookup tasks t.id with
  | none => true
  | some d => decide (d ∈ processed)

/-- One scan pass of the resolver: collect, in original list order, the
unprocessed tasks whose dependencies are all processed
(`currentGroup` in the Go code). -/
def groupStep (tasks : List SubTask) (processed : List String) : List SubTask :=
  tasks.filter (fun t => decide (t.id ∉ processed) && canExecute tasks processed t)

/-- Mark the tasks of a freshly formed group as processed.  Go stores
`processed` as a set (`map[string]bool`); we keep a duplicate-free list,
so its length is the Go map's size. -/
def insertIds (processed : List String) (g : List SubTask) : List String :=
  g.foldl (fun p t => if t.id ∈ p then p else p ++ [t.id]) processed

/-- The resolver's outer loop (`for len(processed) < len(tasks)`), with
explicit fuel.  Groups are accumulated in `groups` exactly as the Go code
appends them; an empty scan pass breaks out of the loop.  `fuel` bounds
the number of iterations; `analyzeTaskDependencies` supplies
`tasks.length`, which is enough (each productive pass processes at least
one new id), and the fuel-independence theorem below proves it. -/
def resolveLoopAcc (tasks : List SubTask) :
    Nat → List String → List (List SubTask) → List (List SubTask)
  | 0, _, groups => groups
  | fuel+1, processed, groups =>
    if processed.length < tasks.length then
      let g := groupStep tasks processed
      if g = [] then groups
      else resolveLoopAcc tasks fuel (insertIds processed g) (groups ++ [g])
    else groups

/-- Accumulator-free form of the same loop, used by the proofs; the
bridge lemma `resolveLoopAcc_eq` relates the two. -/
def resolveLoop (tasks : List SubTask) : Nat → List String → List (List SubTask)
  | 0, _ => []
  | fuel+1, processed =>
    if processed.length < tasks.length then
      let g := groupStep tasks processed
      if g = [] then []
      else g :: resolveLoop tasks fuel (insertIds processed g)
    else []

/-- `analyzeTaskDependencies` (executor.go:362-417): iterative
topological leveling into execution waves. -/
def analyzeTaskDependencies (tasks : List SubTask) : List (List SubTask) :=
  resolveLoopAcc tasks tasks.length [] []

/-! ## Task execution (`ExecuteTask`, executor.go:53-119) -/

/-- The four dispatch targets of `ExecuteTask`'s type switch. -/
inductive Handler where
  | functionTask
  | agentCallTask
  | agentGenTask
  | normalTask
deriving Repr, DecidableEq

/-- The `switch models.SubTaskType(task.Type)` of executor.go:77-86: the
three recognised tags each select their handler, everything else
(including the `"task"` tag and the empty string) falls to the `default`
branch, `executeNormalTask`. -/
def dispatchHandler (taskType : String) : Handler :=
  if taskType = "function" then Handler.functionTask
  else if taskType = "agent_call" then Handler.agentCallTask
  else if taskType = "agent_gen" then Handler.agentGenTask
  else Handler.normalTask

/-- Equality of `Except` values is decidable when it is on both sides. -/
instance {ε α : Type} [DecidableEq ε] [DecidableEq α] : DecidableEq (Except ε α) :=
  fun x y =>
    match x, y with
    | Except.error a, Except.error b =>
      if h : a = b then isTrue (by rw [h]) else
        isFalse (fun hh => h (by injection hh))
    | Except.error _, Except.ok _ => isFalse (fun hh => Except.noConfusion hh)
    | Except.ok _, Except.error _ => isFalse (fun hh => Except.noConfusion hh)
    | Except.ok a, Except.ok b =>
      if h : a = b then isTrue (by rw [h]) else
        isFalse (fun hh => h (by injection hh))

/-- Outcomes of one `ExecuteTask` call's external interactions: the
"started" ledger append (which the code branches on) and the result each
handler would produce if dispatched.  `now` stands for `time.Now()`. -/
structure ExecEnv where
  recordStartResult : Except String String
  functionResult : Except String Unit
  agentCallResult : Except String Unit
  agentGenResult : Except String Unit
  normalResult : Except String Unit
  now : Nat
deriving Repr, DecidableEq

/-- Result of the dispatched handler for a given dispatch target. -/
def handlerResult (env : ExecEnv) : Handler → Except String Unit
  | Handler.functionTask => env.functionResult
  | Handler.agentCallTask => env.agentCallResult
  | Handler.agentGenTask => env.agentGenResult
  | Handler.normalTask => env.normalResult

/-- `ExecuteTask` (executor.go:53-119).  Returns the task as mutated in
place by the Go code together with the returned error.  The completion
and error ledger appends are fire-and-forget in the source (their results
are discarded) and do not appear here; the start append's failure causes
the early `return` of executor.go:70-72, before any handler runs. -/
def executeTask (env : ExecEnv) (task : SubTask) : SubTask × Except String Unit :=
  let running := { task with state := "running", updatedAt := env.now }
  match env.recordStartResult with
  | Except.error e => (running, Except.error ("failed to record task start: " ++ e))
  | Except.ok recordID =>
    let started := { running with recordId := recordID }
    match handlerResult env (dispatchHandler task.type_) with
    | Except.error msg =>
      ({ started with state := "fail", stateMsg := msg, updatedAt := env.now },
        Except.error msg)
    | Except.ok _ =>
      ({ started with state := "success", updatedAt := env.now }, Except.ok ())

/-! ## Batch execution (`ExecuteBatch`, executor.go:122-155) -/

/-- `CanParallelize` (executor.go:158-181): false when a task depends on
another task of the same group, or any task is of the `agent_gen` type. -/
def canParallelize (tasks : List SubTask) : Bool :=
  let taskIDs := tasks.map (fun t => t.id)
  if tasks.any (fun t => decide (t.dependent ≠ "") && decide (t.dependent ∈ taskIDs)) then
    false
  else if tasks.any (fun t => decide (t.type_ = "agent_gen")) then
    false
  else
    true

/-- Per-task external outcomes for a batch run: each task's
`ExecuteTask` call draws its environment from this map. -/
def runTask (benv : SubTask → ExecEnv) (t : SubTask) : SubTask × Except String Unit :=
  executeTask (benv t) t

/-- The error strings collected on `executeParallel`'s channel
(`"task %s failed: %w"`). -/
def errsOf (rs : List (SubTask × Except String Unit)) : List String :=
  rs.filterMap (fun r =>
    match r.2 with
    | Except.error e => some ("task " ++ r.1.id ++ " failed: " ++ e)
    | Except.ok _ => none)

/-- `executeParallel` (executor.go:320-360): every task of the group
runs (the worker pool only bounds concurrency); the collected errors,
if any, become one aggregated error. -/
def executeParallelGroup (benv : SubTask → ExecEnv) (g : List SubTask) :
    List (SubTask × Except String Unit) × Except String Unit :=
  let rs := g.map (runTask benv)
  let errs := errsOf rs
  if errs.isEmpty then (rs, Except.ok ())
  else
    (rs, Except.error ("parallel execution had " ++ toString errs.length ++
      " errors: " ++ errs.headD ""))

/-- The wave loop of `ExecuteBatch` (executor.go:137-152).  The first
component records every `ExecuteTask` call made (post-state and per-task
error, in execution order); the second is the batch return value.  In the
serial branch a task failure is printed and the loop continues; in the
parallel branch an aggregated error aborts the batch wrapped as
`"parallel execution failed: %w"`. -/
def executeBatchLoop (par : Bool) (benv : SubTask → ExecEnv) :
    List (List SubTask) → List (SubTask × Except String Unit) × Except String Unit
  | [] => ([], Except.ok ())
  | g :: gs =>
    if par && canParallelize g then
      match executeParallelGroup benv g with
      | (rs, Except.error e) => (rs, Except.error ("parallel execution failed: " ++ e))
      | (rs, Except.ok _) =>
        let rest := executeBatchLoop par benv gs
        (rs ++ rest.1, rest.2)
    else
      let rs := g.map (runTask benv)
      let rest := executeBatchLoop par benv gs
      (rs ++ rest.1, rest.2)

/-- `ExecuteBatch` (executor.go:122-155).  `par` is the executor's
`parallel` configuration flag.  (The `taskMap` built at executor.go:128-131
is dead code and not modelled.) -/
def executeBatch (par : Bool) (benv : SubTask → ExecEnv) (tasks : List SubTask) :
    List (SubTask × Except String Unit) × Except String Unit :=
  if tasks.isEmpty then ([], Except.ok ())
  else executeBatchLoop par benv (analyzeTaskDependencies tasks)

/-! ## Plan optimisation (`OptimizePlan`, planner.go:131-168) -/

/-- Does `small` start `big`?  Character-level version of the byte-level
comparison done by Go's `strings` package (equivalent on valid UTF-8 for
the patterns used here). -/
def charsStartWith : List Char → List Char → Bool
  | _, [] => true
  | [], _ :: _ => false
  | c :: cs, d :: ds => c == d && charsStartWith cs ds

/-- Substring occurrence on character lists. -/
def charsContain : List Char → List Char → Bool
  | [], sub => sub.isEmpty
  | c :: cs, sub => charsStartWith (c :: cs) sub || charsContain cs sub

/-- `strings.Contains`. -/
def containsSub (s sub : String) : Bool :=
  charsContain s.toList sub.toList

/-- `strings.ToLower`, restricted to the ASCII lowering that the matched
markers require. -/
def toLowerStr (s : String) : String :=
  String.mk (s.toList.map Char.toLower)

/-- `inferTaskType` (planner.go:276-290): guess a task type from markers
in its `process` text; never returns the empty string. -/
def inferTaskType (process : String) : String :=
  let p := toLowerStr process
  if containsSub p "<function_call>" || containsSub p "function:" then "function"
  else if containsSub p "<agent_call>" || containsSub p "agent:" then "agent_call"
  else if containsSub p "<agent_gen>" then "agent_gen"
  else "task"

/-- The loop body of `OptimizePlan` (planner.go:134-165): drop
empty-description and duplicate-description tasks, fill in missing id /
state / type, restamp both timestamps to `now`, and append.  `n` counts
the uuids drawn so far, so `freshId n` stands for the `uuid.New()`
of planner.go:152. -/
def optimizeGo (freshId : Nat → String) (now : Nat) :
    List SubTask → List SubTask → Nat → List SubTask
  | [], acc, _ => acc
  | t :: rest, acc, n =>
    if t.description = "" then optimizeGo freshId now rest acc n
    else if acc.any (fun e => decide (e.description = t.description)) then
      optimizeGo freshId now rest acc n
    else
      let tid := if t.id = "" then freshId n else t.id
      let n' := if t.id = "" then n + 1 else n
      let st := if t.state = "" then "wait" else t.state
      let ty := if t.type_ = "" then inferTaskType t.process else t.type_
      optimizeGo freshId now rest
        (acc ++ [{ t with id := tid, state := st, type_ := ty, createdAt := now,
                          updatedAt := now }]) n'

/-- `OptimizePlan` (planner.go:131-168). -/
def optimizePlan (freshId : Nat → String) (now : Nat) (tasks : List SubTask) :
    List SubTask :=
  optimizeGo freshId now tasks [] 0

/-- Restamping of both timestamps to a given clock value, the one field
change a second `OptimizePlan` application performs. -/
def restamp (now : Nat) (t : SubTask) : SubTask :=
  { t with createdAt := now, updatedAt := now }

/-! ## Planning (`Plan` of planner.go and intelligent_planner.go) -/

/-- A raw task as decoded from the planner's JSON schema
(planner.go:240-246). -/
structure RawSubTask where
  name : String := ""
  description : String := ""
  process : String := ""
  type_ : String := ""
  dependent : String := ""
deriving Repr, DecidableEq

/-- The decoded planning JSON (planner.go:239-248). -/
structure RawPlan where
  tasks : List RawSubTask := []
  summary : String := ""
deriving Repr, DecidableEq

/-- `models.PlanningResult`.  The Go `Dependencies` map is kept as an
association list in insertion order; `Metadata` is irrelevant to the
claims and omitted. -/
structure PlanningResult where
  tasks : List SubTask := []
  dependencies : List (String × List String) := []
  summary : String := ""
deriving Repr, DecidableEq

/-- Opening brace character, written via its code point. -/
def braceOpen : Char := Char.ofNat 123

/-- Closing brace character, written via its code point. -/
def braceClose : Char := Char.ofNat 125

/-- The positional part of the JSON-span extraction shared by both
planners (planner.go:229-236, intelligent_planner.go:195-202): the
substring from the first opening brace to the last closing brace,
inclusive; `none` when either brace is absent (Go returns its "no JSON
found" error then).  In the corner marked by `jsonSpanFaults` the Go
slice expression `content[jsonStart : jsonEnd+1]` panics instead of
producing a value; the planner models below either represent that panic
explicitly (`parsePlanningResponse`) or are only used on paths that never
reach it. -/
def jsonSpan (content : String) : Option String :=
  let cs := content.toList
  match cs.findIdx? (fun ch => ch == braceOpen),
        cs.reverse.findIdx? (fun ch => ch == braceClose) with
  | some s, some k =>
    let e := cs.length - 1 - k
    some (String.mk ((cs.drop s).take (e + 1 - s)))
  | _, _ => none

/-- The inputs on which the Go span slice `content[jsonStart:jsonEnd+1]`
panics: both braces are present but the first opening brace lies more
than one position past the last closing brace (`jsonStart > jsonEnd + 1`,
a slice-bounds-out-of-range runtime panic — the repository installs no
`recover`).  Both brace characters occupy one byte, so this char-level
condition coincides with Go's byte-level one. -/
def jsonSpanFaults (content : String) : Bool :=
  let cs := content.toList
  match cs.findIdx? (fun ch => ch == braceOpen),
        cs.reverse.findIdx? (fun ch => ch == braceClose) with
  | some s, some k => decide (cs.length - 1 - k + 1 < s)
  | _, _ => false

/-- `parsePlanningResult` (planner.go:227-274).  `decode` abstracts
`encoding/json.Unmarshal` (standard library, outside this repository):
`none` on malformed JSON.  Decoded raw tasks get ids
`task_<i>_<uuid[:8]>`, state `wait` and fresh timestamps. -/
def parsePlanningResult (decode : String → Option RawPlan) (freshId : Nat → String)
    (now : Nat) (content : String) : Except String PlanningResult :=
  match jsonSpan content with
  | none => Except.error "no JSON found in response"
  | some jsonStr =>
    match decode jsonStr with
    | none => Except.error "failed to parse JSON"
    | some raw =>
      Except.ok
        { tasks := raw.tasks.enum.map (fun p =>
            { id := "task_" ++ toString p.1 ++ "_" ++ freshId p.1,
              name := p.2.name, description := p.2.description,
              process := p.2.process, type_ := p.2.type_,
              dependent := p.2.dependent, state := "wait",
              createdAt := now, updatedAt := now }),
          dependencies := [],
          summary := raw.summary }

/-- Association-list lookup standing for a Go map read. -/
def dmLookup (m : List (String × List String)) (k : String) : Option (List String) :=
  (m.find? (fun p => decide (p.1 = k))).map (fun p => p.2)

/-- Association-list write standing for a Go map write: replace the
binding in place when the key exists, append otherwise. -/
def dmInsert (m : List (String × List String)) (k : String) (v : List String) :
    List (String × List String) :=
  if m.any (fun p => decide (p.1 = k)) then
    m.map (fun p => if p.1 = k then (k, v) else p)
  else m ++ [(k, v)]

/-- `buildDependencyMap` (planner.go:292-309). -/
def buildDependencyMap (tasks : List SubTask) : List (String × List String) :=
  tasks.foldl
    (fun deps t =>
      if t.dependent ≠ "" then
        dmInsert deps t.id (((dmLookup deps t.id).getD []) ++ [t.dependent])
      else dmInsert deps t.id [])
    []

/-- `TaskPlanner.Plan` (planner.go:34-94).  `currentDepth` and
`maxSteps` are the planner's depth counter and Planning Budget;
`recordStart` is the outcome of the "started" planning ledger append
(the second component of the result lists the planning-record statuses
actually appended, so the depth-exceeded and record-failure branches
append none); `llm` is the Oracle call outcome. -/
def taskPlannerPlan (maxSteps : List Nat) (currentDepth : Nat)
    (recordStart : Except String String) (llm : Except String String)
    (decode : String → Option RawPlan) (freshId : Nat → String) (now : Nat) :
    Except String PlanningResult × List String :=
  if maxSteps.length ≤ currentDepth then
    (Except.error "max planning depth reached", [])
  else
    match recordStart with
    | Except.error e => (Except.error ("failed to record planning start: " ++ e), [])
    | Except.ok _ =>
      match llm with
      | Except.error e => (Except.error ("LLM call failed: " ++ e), ["started"])
      | Except.ok content =>
        match parsePlanningResult decode freshId now content with
        | Except.error e =>
          (Except.error ("failed to parse planning result: " ++ e), ["started"])
        | Except.ok planResult =>
          let tasks := optimizePlan freshId now planResult.tasks
          (Except.ok { planResult with
              tasks := tasks, dependencies := buildDependencyMap tasks },
            ["started", "completed"])

/-- `parsePlanningResponse` (intelligent_planner.go:193-329).  `decode`
abstracts `json.Unmarshal` together with the total field-by-field
conversion of the decoded struct into a `PlanningResult`
(intelligent_planner.go:251-328); decoding is the only returned failure.
The outer `Option` represents control flow: `none` is the span slice's
runtime panic (no value is ever returned, the process crashes),
`some none` is a returned parse error, and `some (some plan)` is a
successful parse. -/
def parsePlanningResponse (decode : String → Option PlanningResult)
    (response : String) : Option (Option PlanningResult) :=
  if jsonSpanFaults response then none
  else
    match jsonSpan response with
    | none => some none
    | some s => some (decode s)

/-- `createDefaultPlan` (intelligent_planner.go:350-439): the
deterministic fallback plan, chosen by keyword matching on the original
message; every branch produces at least one task. -/
def createDefaultPlan (freshId : Nat → String) (now : Nat) (message : String) :
    PlanningResult :=
  if containsSub message "研究" || containsSub message "分析" then
    let t0 : SubTask :=
      { id := "task_0_" ++ freshId 0, name := "信息收集与研究",
        description := "收集相关信息和数据，进行初步研究", type_ := "agent_call",
        state := "wait", createdAt := now, updatedAt := now }
    let t1 : SubTask :=
      { id := "task_1_" ++ freshId 1, name := "深度分析",
        description := "对收集的信息进行深度分析和整理", type_ := "task",
        state := "wait", dependent := t0.id, createdAt := now, updatedAt := now }
    let t2 : SubTask :=
      { id := "task_2_" ++ freshId 2, name := "报告生成",
        description := "基于分析结果生成详细报告", type_ := "agent_gen",
        state := "wait", dependent := t1.id, createdAt := now, updatedAt := now }
    { tasks := [t0, t1, t2], dependencies := [],
      summary := "为 '" ++ message ++ "' 生成了" ++ toString 3 ++ "个任务的执行计划" }
  else if containsSub message "生成" || containsSub message "创建" then
    let t0 : SubTask :=
      { id := "task_0_" ++ freshId 0, name := "需求分析",
        description := "分析生成需求和规范", type_ := "task",
        state := "wait", createdAt := now, updatedAt := now }
    let t1 : SubTask :=
      { id := "task_1_" ++ freshId 1, name := "内容生成",
        description := "根据需求生成内容", type_ := "agent_gen",
        state := "wait", dependent := t0.id, createdAt := now, updatedAt := now }
    let t2 : SubTask :=
      { id := "task_2_" ++ freshId 2, name := "质量检查",
        description := "检查和优化生成的内容", type_ := "task",
        state := "wait", dependent := t1.id, createdAt := now, updatedAt := now }
    { tasks := [t0, t1, t2], dependencies := [],
      summary := "为 '" ++ message ++ "' 生成了" ++ toString 3 ++ "个任务的执行计划" }
  else
    { tasks := [{ id := "task_0_" ++ freshId 0, name := "任务执行",
                  description := "执行任务: " ++ message, type_ := "task",
                  state := "wait", createdAt := now, updatedAt := now }],
      dependencies := [],
      summary := "为 '" ++ message ++ "' 生成了" ++ toString 1 ++ "个任务的执行计划" }

/-- `IntelligentTaskPlanner.Plan` (intelligent_planner.go:55-107): on an
Oracle failure the error surfaces; on a returned parse failure the
deterministic default plan is returned with a nil error.  The outer
`Option` propagates the span slice's runtime panic (`none`: the call
crashes and `Plan` never returns).  (The planning ledger append on the
success path is fire-and-forget and not modelled.) -/
def intelligentPlan (decode : String → Option PlanningResult) (freshId : Nat → String)
    (now : Nat) (llm : Except String String) (message : String) :
    Option (Except String PlanningResult) :=
  match llm with
  | Except.error e => some (Except.error ("LLM调用失败: " ++ e))
  | Except.ok content =>
    match parsePlanningResponse decode content with
    | none => none
    | some none => some (Except.ok (createDefaultPlan freshId now message))
    | some (some plan) => some (Except.ok plan)

/-! ## Concrete inputs used by counterexamples and witnesses -/

/-- A task with no predecessor. -/
def tA : SubTask := { id := "a" }

/-- A task depending on `tA`. -/
def tB : SubTask := { id := "b", dependent := "a" }

/-- Half of a two-task dependency cycle. -/
def tCyc1 : SubTask := { id := "a", dependent := "b" }

/-- Other half of the two-task dependency cycle. -/
def tCyc2 : SubTask := { id := "b", dependent := "a" }

/-- A task whose predecessor id matches no task in its list. -/
def tDangle : SubTask := { id := "a", dependent := "ghost" }

/-- An execution environment whose "started" ledger append fails. -/
def envRecordFail : ExecEnv :=
  { recordStartResult := Except.error "disk full", functionResult := Except.ok (),
    agentCallResult := Except.ok (), agentGenResult := Except.ok (),
    normalResult := Except.ok (), now := 3 }

/-- An execution environment in which everything succeeds. -/
def envAllOk : ExecEnv :=
  { recordStartResult := Except.ok "rec1", functionResult := Except.ok (),
    agentCallResult := Except.ok (), agentGenResult := Except.ok (),
    normalResult := Except.ok (), now := 3 }

/-- An execution environment whose dispatched plain-task handler fails. -/
def envNormalFail : ExecEnv :=
  { recordStartResult := Except.ok "rec1", functionResult := Except.ok (),
    agentCallResult := Except.ok (), agentGenResult := Except.ok (),
    normalResult := Except.error "boom", now := 3 }

/-- Three independent tasks; the middle one is engineered to fail under
`benvMidFail`. -/
def demoTasks3 : List SubTask := [{ id := "t1" }, { id := "t2" }, { id := "t3" }]

/-- Batch environment in which exactly task `t2` fails. -/
def benvMidFail : SubTask → ExecEnv :=
  fun t => if t.id = "t2" then envNormalFail else envAllOk

/-- Batch environment in which every task fails. -/
def benvAllFail : SubTask → ExecEnv := fun _ => envNormalFail

/-- An Oracle response whose first opening brace lies three positions
past its last closing brace — the input on which the Go span slice
panics (`content[3:1]`). -/
def faultResponse : String := String.mk [braceClose, 'a', 'b', braceOpen]

/-- A raw task list exercising every `OptimizePlan` clause: a task with
no id, a duplicate description, an empty description, and an untyped
task whose `process` carries an `agent_gen` marker. -/
def demoOptTasks : List SubTask :=
  [{ description := "Collect data" },
   { id := "x", description := "Collect data" },
   { description := "" },
   { id := "y", description := "Report", process := "<agent_gen>go" }]

/-! ## Resolver lemmas -/

theorem mem_groupStep {tasks : List SubTask} {p : List String} {t : SubTask} :
    t ∈ groupStep tasks p ↔
      t ∈ tasks ∧ t.id ∉ p ∧ canExecute tasks p t = true := by
  simp [groupStep, List.mem_filter, and_assoc]

theorem insertIds_nil (p : List String) : insertIds p [] = p := rfl

theorem insertIds_cons (p : List String) (t : SubTask) (g : List SubTask) :
    insertIds p (t :: g) = insertIds (if t.id ∈ p then p else p ++ [t.id]) g := rfl

theorem mem_insertIds_of_mem {g : List SubTask} :
    ∀ {p : List String} {i : String}, i ∈ p → i ∈ insertIds p g := by
  induction g with
  | nil => intro p i h; exact h
  | cons t g ih =>
    intro p i h
    rw [insertIds_cons]
    by_cases hm : t.id ∈ p
    · rw [if_pos hm]; exact ih h
    · rw [if_neg hm]; exact ih (List.mem_append_left _ h)

theorem mem_insertIds {g : List SubTask} :
    ∀ {p : List String} {i : String}, i ∈ insertIds p g →
      i ∈ p ∨ ∃ t ∈ g, t.id = i := by
  induction g with
  | nil => intro p i h; exact Or.inl h
  | cons t g ih =>
    intro p i h
    rw [insertIds_cons] at h
    rcases ih h with h' | ⟨u, hu, hui⟩
    · by_cases hm : t.id ∈ p
      · rw [if_pos hm] at h'; exact Or.inl h'
      · rw [if_neg hm] at h'
        rcases List.mem_append.mp h' with h'' | h''
        · exact Or.inl h''
        · exact Or.inr ⟨t, List.mem_cons_self t g, (List.mem_singleton.mp h'').symm⟩
    · exact Or.inr ⟨u, List.mem_cons_of_mem t hu, hui⟩

theorem id_mem_insertIds {g : List SubTask} :
    ∀ {p : List String} {t : SubTask}, t ∈ g → t.id ∈ insertIds p g := by
  induction g with
  | nil => intro p t h; cases h
  | cons u g ih =>
    intro p t h
    rw [insertIds_cons]
    rcases List.mem_cons.mp h with h' | h'
    · subst h'
      by_cases hm : t.id ∈ p
      · rw [if_pos hm]; exact mem_insertIds_of_mem hm
      · rw [if_neg hm]
        exact mem_insertIds_of_mem (List.mem_append_right _ (List.mem_singleton.mpr rfl))
    · exact ih h'

theorem insertIds_nodup {g : List SubTask} :
    ∀ {p : List String}, p.Nodup → (insertIds p g).Nodup := by
  induction g with
  | nil => intro p h; exact h
  | cons t g ih =>
    intro p h
    rw [insertIds_cons]
    by_cases hm : t.id ∈ p
    · rw [if_pos hm]; exact ih h
    · rw [if_neg hm]
      refine ih (List.Nodup.append h (List.nodup_singleton _) ?_)
      intro i hi hi'
      rw [List.mem_singleton] at hi'
      exact hm (hi' ▸ hi)

theorem insertIds_length_le {g : List SubTask} :
    ∀ {p : List String}, p.length ≤ (insertIds p g).length := by
  induction g with
  | nil => intro p; exact Nat.le_refl _
  | cons t g ih =>
    intro p
    rw [insertIds_cons]
    by_cases hm : t.id ∈ p
    · rw [if_pos hm]; exact ih
    · rw [if_neg hm]
      calc p.length ≤ (p ++ [t.id]).length := by simp
        _ ≤ _ := ih

theorem insertIds_length_lt {p : List String} {g : List SubTask}
    (hne : g ≠ []) (hnp : ∀ t ∈ g, t.id ∉ p) :
    p.length < (insertIds p g).length := by
  cases g with
  | nil => exact absurd rfl hne
  | cons t g =>
    rw [insertIds_cons, if_neg (hnp t (List.mem_cons_self t g))]
    calc p.length < (p ++ [t.id]).length := by simp
      _ ≤ _ := insertIds_length_le

theorem resolveLoop_succ_eq (tasks : List SubTask) (fuel : Nat) (p : List String) :
    resolveLoop tasks (fuel + 1) p =
      if p.length < tasks.length then
        if groupStep tasks p = [] then []
        else groupStep tasks p :: resolveLoop tasks fuel (insertIds p (groupStep tasks p))
      else [] := rfl

theorem resolveLoopAcc_eq (tasks : List SubTask) :
    ∀ (fuel : Nat) (p : List String) (acc : List (List SubTask)),
      resolveLoopAcc tasks fuel p acc = acc ++ resolveLoop tasks fuel p := by
  intro fuel
  induction fuel with
  | zero => intro p acc; simp [resolveLoopAcc, resolveLoop]
  | succ f ih =>
    intro p acc
    by_cases h1 : p.length < tasks.length
    · by_cases h2 : groupStep tasks p = []
      · simp [resolveLoopAcc, resolveLoop, h1, h2]
      · simp only [resolveLoopAcc, resolveLoop, if_pos h1, if_neg h2, ih]
        simp
    · simp [resolveLoopAcc, resolveLoop, h1]

theorem resolveLoop_fuel_succ (tasks : List SubTask) :
    ∀ (fuel : Nat) (p : List String), tasks.length ≤ p.length + fuel →
      resolveLoop tasks (fuel + 1) p = resolveLoop tasks fuel p := by
  intro fuel
  induction fuel with
  | zero =>
    intro p h
    have h1 : ¬ p.length < tasks.length := by omega
    simp [resolveLoop, h1]
  | succ f ih =>
    intro p h
    conv_lhs => rw [resolveLoop_succ_eq]
    conv_rhs => rw [resolveLoop_succ_eq]
    by_cases h1 : p.length < tasks.length
    · rw [if_pos h1, if_pos h1]
      by_cases h2 : groupStep tasks p = []
      · rw [if_pos h2, if_pos h2]
      · rw [if_neg h2, if_neg h2]
        have hgrow : p.length < (insertIds p (groupStep tasks p)).length :=
          insertIds_length_lt h2 (fun t ht => (mem_groupStep.mp ht).2.1)
        have hfuel : tasks.length ≤ (insertIds p (groupStep tasks p)).length + f := by
          omega
        rw [ih _ hfuel]
    · rw [if_neg h1, if_neg h1]

theorem resolveLoop_fuel_ge (tasks : List SubTask) :
    ∀ (extra : Nat),
      resolveLoop tasks (tasks.length + extra) [] = resolveLoop tasks tasks.length [] := by
  intro extra
  induction extra with
  | zero => rfl
  | succ e ih =>
    rw [Nat.add_succ]
    rw [resolveLoop_fuel_succ tasks (tasks.length + e) []
      (by simp only [List.length_nil]; omega)]
    exact ih

/-- Claim C8: the resolver's grouping loop terminates on every finite
task list, cyclic input included: `tasks.length` passes of the outer loop
already reach the exit condition (each productive pass processes at least
one new task id, and an unproductive pass breaks out), so granting the
loop any amount of extra fuel beyond `analyzeTaskDependencies`'s budget
of `tasks.length` changes nothing about the result. -/
theorem analyzeTaskDependencies_terminates (tasks : List SubTask) (extra : Nat) :
    resolveLoopAcc tasks (tasks.length + extra) [] [] = analyzeTaskDependencies tasks := by
  rw [analyzeTaskDependencies, resolveLoopAcc_eq, resolveLoopAcc_eq, resolveLoop_fuel_ge]

/-- Claim C5: when a scan pass of the resolver finds zero newly eligible
tasks (`groupStep` comes back empty) while unprocessed tasks remain, the
loop stops and returns exactly the waves accumulated so far, every
not-yet-emitted task is absent from the returned waves, and no error is
possible (the resolver's type has no error outcome). -/
theorem resolver_stall_drops_rest (tasks : List SubTask) (fuel : Nat)
    (processed : List String) (acc : List (List SubTask))
    (hstall : groupStep tasks processed = [])
    (hrem : ∃ t ∈ tasks, t.id ∉ processed) :
    resolveLoopAcc tasks fuel processed acc = acc ∧
    ∀ t ∈ tasks, t.id ∉ processed → t ∉ acc.flatten →
      t ∉ (resolveLoopAcc tasks fuel processed acc).flatten := by
  have heq : resolveLoopAcc tasks fuel processed acc = acc := by
    cases fuel with
    | zero => rfl
    | succ f =>
      by_cases h1 : processed.length < tasks.length
      · simp [resolveLoopAcc, h1, hstall]
      · simp [resolveLoopAcc, h1]
  exact ⟨heq, fun t _ _ hnot => by rw [heq]; exact hnot⟩

/-- Witness for C5: a two-task cycle stalls the very first pass, and the
resolver returns the (empty) set of waves computed so far. -/
theorem resolver_stall_drops_rest_witness :
    resolveLoopAcc [tCyc1, tCyc2] 2 [] [] = [] :=
  (resolver_stall_drops_rest [tCyc1, tCyc2] 2 [] [] (by decide) (by decide)).1

/-! ## Lemmas about eligibility under unique task ids -/

theorem id_inj {tasks : List SubTask} (hnodup : (tasks.map SubTask.id).Nodup)
    {a b : SubTask} (ha : a ∈ tasks) (hb : b ∈ tasks) (hid : a.id = b.id) : a = b :=
  List.inj_on_of_nodup_map hnodup ha hb hid

theorem depLookup_eq {tasks : List SubTask} (hnodup : (tasks.map SubTask.id).Nodup)
    {t : SubTask} (ht : t ∈ tasks) :
    depLookup tasks t.id = if t.dependent = "" then none else some t.dependent := by
  have hmem : ∀ u ∈ tasks.filter (fun u => decide (u.id = t.id ∧ u.dependent ≠ "")),
      u = t := by
    intro u hu
    have h1 := List.mem_filter.mp hu
    have h2 := of_decide_eq_true h1.2
    exact id_inj hnodup h1.1 ht h2.1
  by_cases hdep : t.dependent = ""
  · have hnil : tasks.filter (fun u => decide (u.id = t.id ∧ u.dependent ≠ "")) = [] := by
      rw [List.eq_nil_iff_forall_not_mem]
      intro u hu
      have h2 := of_decide_eq_true (List.mem_filter.mp hu).2
      exact h2.2 (hmem u hu ▸ hdep)
    rw [if_pos hdep]
    unfold depLookup
    rw [hnil]
    rfl
  · have htl : t ∈ tasks.filter (fun u => decide (u.id = t.id ∧ u.dependent ≠ "")) :=
      List.mem_filter.mpr ⟨ht, decide_eq_true ⟨rfl, hdep⟩⟩
    have hne := List.ne_nil_of_mem htl
    have hlast : (tasks.filter
        (fun u => decide (u.id = t.id ∧ u.dependent ≠ ""))).getLast hne = t :=
      hmem _ (List.getLast_mem hne)
    rw [if_neg hdep]
    unfold depLookup
    rw [List.getLast?_eq_getLast_of_ne_nil hne, hlast]
    rfl

theorem canExecute_eq {tasks : List SubTask} (hnodup : (tasks.map SubTask.id).Nodup)
    {t : SubTask} (ht : t ∈ tasks) (p : List String) :
    canExecute tasks p t = true ↔ (t.dependent = "" ∨ t.dependent ∈ p) := by
  unfold canExecute
  rw [depLookup_eq hnodup ht]
  by_cases hdep : t.dependent = "" <;> simp [hdep]

theorem dangling_not_in_resolveLoop {tasks : List SubTask}
    (hnodup : (tasks.map SubTask.id).Nodup) {t : SubTask} (ht : t ∈ tasks)
    (hdep : t.dependent ≠ "") (hdangle : ∀ u ∈ tasks, u.id ≠ t.dependent) :
    ∀ (fuel : Nat) (p : List String), (∀ i ∈ p, ∃ u ∈ tasks, u.id = i) →
      t ∉ (resolveLoop tasks fuel p).flatten := by
  intro fuel
  induction fuel with
  | zero => intro p _; simp [resolveLoop]
  | succ f ih =>
    intro p hp
    rw [resolveLoop_succ_eq]
    by_cases h1 : p.length < tasks.length
    · rw [if_pos h1]
      by_cases h2 : groupStep tasks p = []
      · rw [if_pos h2]; simp
      · rw [if_neg h2]
        intro hmem
        rw [List.mem_flatten] at hmem
        obtain ⟨l, hl, htl⟩ := hmem
        rcases List.mem_cons.mp hl with hlg | hlr
        · have hc := (mem_groupStep.mp (hlg ▸ htl)).2.2
          rcases (canExecute_eq hnodup ht p).mp hc with h | h
          · exact hdep h
          · obtain ⟨u, hu, hui⟩ := hp _ h
            exact hdangle u hu hui
        · have hp' : ∀ i ∈ insertIds p (groupStep tasks p), ∃ u ∈ tasks, u.id = i := by
            intro i hi
            rcases mem_insertIds hi with h | ⟨w, hw, hwi⟩
            · exact hp i h
            · exact ⟨w, (mem_groupStep.mp hw).1, hwi⟩
          exact ih (insertIds p (groupStep tasks p)) hp'
            (List.mem_flatten.mpr ⟨l, hlr, htl⟩)
    · rw [if_neg h1]; simp

/-- Claim C4 counterexample: a single task whose non-empty predecessor
id `"ghost"` matches no task in the list is not "treated as already
satisfied"; the resolver never finds it eligible and returns no waves at
all, so the task is excluded from the output rather than scheduled. -/
theorem dangling_pred_counterexample :
    analyzeTaskDependencies [tDangle] = [] ∧ tDangle.dependent ≠ "" := by decide

/-- Claim C4 (amended): under the Task Graph invariant of unique ids, a
task whose predecessor field is non-empty but matches no task id in the
list is never eligible in any scan pass — its dependency can never enter
the processed set — so it is excluded from every returned wave (dropped
exactly like cyclic residue), not scheduled. -/
theorem dangling_pred_excluded (tasks : List SubTask) (t : SubTask)
    (hnodup : (tasks.map SubTask.id).Nodup) (ht : t ∈ tasks)
    (hdep : t.dependent ≠ "") (hdangle : ∀ u ∈ tasks, u.id ≠ t.dependent) :
    t ∉ (analyzeTaskDependencies tasks).flatten := by
  rw [analyzeTaskDependencies, resolveLoopAcc_eq, List.nil_append]
  exact dangling_not_in_resolveLoop hnodup ht hdep hdangle _ [] (by simp)

/-- Witness for the amended C4 at the concrete dangling task. -/
theorem dangling_pred_excluded_witness :
    tDangle ∉ (analyzeTaskDependencies [tDangle]).flatten :=
  dangling_pred_excluded [tDangle] tDangle (by decide) (by decide) (by decide)
    (by decide)

/-! ## Resolver completeness in the acyclic case (Claim C1) -/

theorem resolveLoop_mem {tasks : List SubTask} :
    ∀ (fuel : Nat) (p : List String) (t : SubTask),
      t ∈ (resolveLoop tasks fuel p).flatten → t ∈ tasks ∧ t.id ∉ p := by
  intro fuel
  induction fuel with
  | zero => intro p t ht; simp [resolveLoop] at ht
  | succ f ih =>
    intro p t ht
    rw [resolveLoop_succ_eq] at ht
    by_cases h1 : p.length < tasks.length
    · rw [if_pos h1] at ht
      by_cases h2 : groupStep tasks p = []
      · rw [if_pos h2] at ht; simp at ht
      · rw [if_neg h2] at ht
        rw [List.mem_flatten] at ht
        obtain ⟨l, hl, htl⟩ := ht
        rcases List.mem_cons.mp hl with hlg | hlr
        · have := mem_groupStep.mp (hlg ▸ htl)
          exact ⟨this.1, this.2.1⟩
        · have := ih (insertIds p (groupStep tasks p)) t
            (List.mem_flatten.mpr ⟨l, hlr, htl⟩)
          exact ⟨this.1, fun hp => this.2 (mem_insertIds_of_mem hp)⟩
    · rw [if_neg h1] at ht; simp at ht

theorem groupStep_ids_nodup {tasks : List SubTask}
    (hnodup : (tasks.map SubTask.id).Nodup) (p : List String) :
    ((groupStep tasks p).map SubTask.id).Nodup :=
  List.Nodup.sublist (List.Sublist.map _ (List.filter_sublist tasks)) hnodup

theorem resolveLoop_ids_nodup {tasks : List SubTask}
    (hnodup : (tasks.map SubTask.id).Nodup) :
    ∀ (fuel : Nat) (p : List String),
      (((resolveLoop tasks fuel p).flatten).map SubTask.id).Nodup := by
  intro fuel
  induction fuel with
  | zero => intro p; simp [resolveLoop]
  | succ f ih =>
    intro p
    rw [resolveLoop_succ_eq]
    by_cases h1 : p.length < tasks.length
    · rw [if_pos h1]
      by_cases h2 : groupStep tasks p = []
      · rw [if_pos h2]; simp
      · rw [if_neg h2]
        rw [List.flatten_cons, List.map_append]
        refine List.Nodup.append (groupStep_ids_nodup hnodup p) (ih _) ?_
        intro i hig hir
        obtain ⟨u, hu, hui⟩ := List.mem_map.mp hig
        obtain ⟨v, hv, hvi⟩ := List.mem_map.mp hir
        have hv2 := (resolveLoop_mem f (insertIds p (groupStep tasks p)) v hv).2
        exact hv2 (hvi ▸ hui ▸ id_mem_insertIds hu)
    · rw [if_neg h1]; simp

theorem resolveLoop_complete {tasks : List SubTask}
    (hnodup : (tasks.map SubTask.id).Nodup)
    (href : ∀ t ∈ tasks, t.dependent ≠ "" → ∃ q ∈ tasks, q.id = t.dependent)
    (rank : String → Nat)
    (hrank : ∀ t ∈ tasks, t.dependent ≠ "" → rank t.dependent < rank t.id) :
    ∀ (fuel : Nat) (p : List String), p.Nodup →
      (∀ i ∈ p, i ∈ tasks.map SubTask.id) →
      tasks.length ≤ p.length + fuel →
      ∀ t ∈ tasks, t.id ∉ p → t ∈ (resolveLoop tasks fuel p).flatten := by
  have hsat : ∀ p : List String, p.Nodup → (∀ i ∈ p, i ∈ tasks.map SubTask.id) →
      tasks.length ≤ p.length → ∀ t ∈ tasks, t.id ∈ p := by
    intro p hnd hsub hlen t ht
    have hsubf : p.toFinset ⊆ (tasks.map SubTask.id).toFinset := by
      intro i hi
      exact List.mem_toFinset.mpr (hsub i (List.mem_toFinset.mp hi))
    have hcard : (tasks.map SubTask.id).toFinset.card ≤ p.toFinset.card := by
      rw [List.toFinset_card_of_nodup hnd, List.toFinset_card_of_nodup hnodup]
      simpa using hlen
    have hfeq := Finset.eq_of_subset_of_card_le hsubf hcard
    have : t.id ∈ p.toFinset := by
      rw [hfeq]
      exact List.mem_toFinset.mpr (List.mem_map_of_mem _ ht)
    exact List.mem_toFinset.mp this
  intro fuel
  induction fuel with
  | zero =>
    intro p hnd hsub hlen t ht htp
    exact absurd (hsat p hnd hsub (by omega) t ht) htp
  | succ f ih =>
    intro p hnd hsub hlen t ht htp
    rw [resolveLoop_succ_eq]
    by_cases h1 : p.length < tasks.length
    swap
    · exact absurd (hsat p hnd hsub (by omega) t ht) htp
    rw [if_pos h1]
    have hex : ∃ r, ∃ u ∈ tasks, u.id ∉ p ∧ rank u.id = r := ⟨rank t.id, t, ht, htp, rfl⟩
    obtain ⟨u, hu, hup, hur⟩ := Nat.find_spec hex
    have hmin : ∀ v ∈ tasks, v.id ∉ p → rank u.id ≤ rank v.id := by
      intro v hv hvp
      rw [hur]
      exact Nat.find_min' hex ⟨v, hv, hvp, rfl⟩
    have hcanu : canExecute tasks p u = true := by
      rw [canExecute_eq hnodup hu]
      by_cases hud : u.dependent = ""
      · exact Or.inl hud
      · obtain ⟨q, hq, hqi⟩ := href u hu hud
        by_cases hqp : q.id ∈ p
        · exact Or.inr (hqi ▸ hqp)
        · exfalso
          have hle := hmin q hq hqp
          have hlt := hrank u hu hud
          rw [hqi] at hle
          omega
    have hug : u ∈ groupStep tasks p := mem_groupStep.mpr ⟨hu, hup, hcanu⟩
    have h2 : groupStep tasks p ≠ [] := List.ne_nil_of_mem hug
    rw [if_neg h2, List.flatten_cons, List.mem_append]
    by_cases htg : t ∈ groupStep tasks p
    · exact Or.inl htg
    · refine Or.inr (ih (insertIds p (groupStep tasks p)) (insertIds_nodup hnd) ?_ ?_ t ht ?_)
      · intro i hi
        rcases mem_insertIds hi with h | ⟨w, hw, hwi⟩
        · exact hsub i h
        · exact hwi ▸ List.mem_map_of_mem _ (mem_groupStep.mp hw).1
      · have := insertIds_length_lt h2 (fun w hw => (mem_groupStep.mp hw).2.1)
        omega
      · intro hmem
        rcases mem_insertIds hmem with h | ⟨w, hw, hwi⟩
        · exact htp h
        · exact htg (id_inj hnodup (mem_groupStep.mp hw).1 ht hwi ▸ hw)

theorem resolveLoop_ordering {tasks : List SubTask}
    (hnodup : (tasks.map SubTask.id).Nodup) :
    ∀ (fuel : Nat) (p : List String) (j : Nat) (t : SubTask),
      t ∈ (resolveLoop tasks fuel p).getD j [] → t.dependent ≠ "" →
      t.dependent ∈ p ∨ ∃ i, i < j ∧
        ∃ q ∈ (resolveLoop tasks fuel p).getD i [], q.id = t.dependent := by
  intro fuel
  induction fuel with
  | zero => intro p j t htj; simp [resolveLoop] at htj
  | succ f ih =>
    intro p j t htj hdep
    rw [resolveLoop_succ_eq] at htj ⊢
    by_cases h1 : p.length < tasks.length
    swap
    · rw [if_neg h1] at htj; simp at htj
    rw [if_pos h1] at htj ⊢
    by_cases h2 : groupStep tasks p = []
    · rw [if_pos h2] at htj; simp at htj
    rw [if_neg h2] at htj ⊢
    cases j with
    | zero =>
      rw [List.getD_cons_zero] at htj
      have hc := (mem_groupStep.mp htj).2.2
      rcases (canExecute_eq hnodup (mem_groupStep.mp htj).1 p).mp hc with h | h
      · exact absurd h hdep
      · exact Or.inl h
    | succ j' =>
      rw [List.getD_cons_succ] at htj
      rcases ih (insertIds p (groupStep tasks p)) j' t htj hdep with h | ⟨i, hij, q, hq, hqi⟩
      · rcases mem_insertIds h with h' | ⟨w, hw, hwi⟩
        · exact Or.inl h'
        · exact Or.inr ⟨0, Nat.succ_pos _, w, by rw [List.getD_cons_zero]; exact hw, hwi⟩
      · exact Or.inr ⟨i + 1, Nat.succ_lt_succ hij, q,
          by rw [List.getD_cons_succ]; exact hq, hqi⟩

/-- Claim C1: resolver completeness in the acyclic case.  For a task
list with unique ids (the Task Graph invariant), whose every non-empty
predecessor references a task id in the list, and whose predecessor graph
is acyclic — witnessed by a topological `rank` on ids under which every
task's predecessor ranks strictly below the task — the waves returned by
`analyzeTaskDependencies` contain each input task exactly once (their
concatenation is a permutation of the input), and every task with a
non-empty predecessor lies in a wave of strictly larger index than some
wave containing its predecessor task. -/
theorem analyzeTaskDependencies_complete (tasks : List SubTask)
    (hnodup : (tasks.map SubTask.id).Nodup)
    (href : ∀ t ∈ tasks, t.dependent ≠ "" → ∃ q ∈ tasks, q.id = t.dependent)
    (rank : String → Nat)
    (hrank : ∀ t ∈ tasks, t.dependent ≠ "" → rank t.dependent < rank t.id) :
    ((analyzeTaskDependencies tasks).flatten.Perm tasks) ∧
    ∀ (j : Nat) (t : SubTask), t ∈ (analyzeTaskDependencies tasks).getD j [] →
      t.dependent ≠ "" →
      ∃ i, i < j ∧ ∃ q ∈ (analyzeTaskDependencies tasks).getD i [], q.id = t.dependent := by
  have hunfold : analyzeTaskDependencies tasks = resolveLoop tasks tasks.length [] := by
    rw [analyzeTaskDependencies, resolveLoopAcc_eq, List.nil_append]
  constructor
  · rw [hunfold]
    have hflat_nodup : ((resolveLoop tasks tasks.length []).flatten).Nodup :=
      List.Nodup.of_map _ (resolveLoop_ids_nodup hnodup tasks.length [])
    have htasks_nodup : tasks.Nodup := List.Nodup.of_map _ hnodup
    rw [List.perm_ext_iff_of_nodup hflat_nodup htasks_nodup]
    intro t
    constructor
    · intro h
      exact (resolveLoop_mem tasks.length [] t h).1
    · intro h
      exact resolveLoop_complete hnodup href rank hrank tasks.length []
        List.nodup_nil (by simp) (by simp) t h (by simp)
  · intro j t htj hdep
    rw [hunfold] at htj ⊢
    rcases resolveLoop_ordering hnodup tasks.length [] j t htj hdep with h | h
    · simp at h
    · exact h

/-- Witness for C1 on the two-task chain `tA ← tB`. -/
theorem analyzeTaskDependencies_complete_witness :
    (analyzeTaskDependencies [tA, tB]).flatten.Perm [tA, tB] :=
  (analyzeTaskDependencies_complete [tA, tB] (by decide) (by decide)
    (fun s => if s = "b" then 1 else 0) (by decide)).1

/-! ## Scheduler state machine (Claims C2, C10, C3) -/

/-- Claim C2 counterexample: when recording the task-start ledger entry
fails, `ExecuteTask` returns early (executor.go:70-72) and the task's
state is neither `success` nor `fail` — it is left at `running`, set at
executor.go:55 and never updated on this path. -/
theorem executeTask_record_fail_not_terminal :
    ¬ ((executeTask envRecordFail tA).1.state = "success" ∨
       (executeTask envRecordFail tA).1.state = "fail") := by decide

theorem executeTask_eq_recordFail (env : ExecEnv) (task : SubTask) (e : String)
    (h : env.recordStartResult = Except.error e) :
    executeTask env task =
      ({ task with state := "running", updatedAt := env.now },
        Except.error ("failed to record task start: " ++ e)) := by
  unfold executeTask
  rw [h]

theorem executeTask_eq_handlerFail (env : ExecEnv) (task : SubTask) (rid msg : String)
    (h : env.recordStartResult = Except.ok rid)
    (hh : handlerResult env (dispatchHandler task.type_) = Except.error msg) :
    executeTask env task =
      ({ task with state := "fail", stateMsg := msg, recordId := rid,
                   updatedAt := env.now },
        Except.error msg) := by
  unfold executeTask
  rw [h, hh]

theorem executeTask_eq_handlerOk (env : ExecEnv) (task : SubTask) (rid : String)
    (h : env.recordStartResult = Except.ok rid)
    (hh : handlerResult env (dispatchHandler task.type_) = Except.ok ()) :
    executeTask env task =
      ({ task with state := "success", recordId := rid, updatedAt := env.now },
        Except.ok ()) := by
  unfold executeTask
  rw [h, hh]

/-- Claim C2 (amended): after `ExecuteTask` returns, the task's state is
exactly one of `success`/`fail` whenever the task-start ledger append
succeeded; when that append fails, `ExecuteTask` returns the record error
with the task left at `running`. -/
theorem executeTask_state_terminal (env : ExecEnv) (task : SubTask) :
    ((∃ rid, env.recordStartResult = Except.ok rid) →
      (executeTask env task).1.state = "success" ∨
        (executeTask env task).1.state = "fail") ∧
    ((∃ e, env.recordStartResult = Except.error e) →
      (executeTask env task).1.state = "running") := by
  constructor
  · rintro ⟨rid, h⟩
    cases hh : handlerResult env (dispatchHandler task.type_) with
    | error msg => rw [executeTask_eq_handlerFail env task rid msg h hh]; exact Or.inr rfl
    | ok u => rw [executeTask_eq_handlerOk env task rid h hh]; exact Or.inl rfl
  · rintro ⟨e, h⟩
    rw [executeTask_eq_recordFail env task e h]

/-- Witness for the amended C2: with the start append succeeding and the
dispatched handler succeeding, the final state is terminal. -/
theorem executeTask_state_terminal_witness :
    (executeTask envAllOk tA).1.state = "success" ∨
      (executeTask envAllOk tA).1.state = "fail" :=
  (executeTask_state_terminal envAllOk tA).1 ⟨"rec1", rfl⟩

/-- Claim C10: any task whose `Type` is not one of the three tags
`function` / `agent_call` / `agent_gen` — the empty string and arbitrary
unrecognised strings included — is dispatched through the plain-task
handler (`executeNormalTask`, the switch's `default` branch); there is no
unknown-task-type error path. -/
theorem dispatch_unknown_type_to_normal (ty : String)
    (h1 : ty ≠ "function") (h2 : ty ≠ "agent_call") (h3 : ty ≠ "agent_gen") :
    dispatchHandler ty = Handler.normalTask ∧
    ∀ env : ExecEnv, handlerResult env (dispatchHandler ty) = env.normalResult := by
  have hd : dispatchHandler ty = Handler.normalTask := by
    unfold dispatchHandler
    rw [if_neg h1, if_neg h2, if_neg h3]
  exact ⟨hd, fun env => by rw [hd]; rfl⟩

/-- Witness for C10 at the empty string and at an arbitrary
unrecognised tag. -/
theorem dispatch_unknown_type_to_normal_witness :
    dispatchHandler "" = Handler.normalTask ∧
    handlerResult envNormalFail (dispatchHandler "bogus") = envNormalFail.normalResult :=
  ⟨(dispatch_unknown_type_to_normal "" (by decide) (by decide) (by decide)).1,
   (dispatch_unknown_type_to_normal "bogus" (by decide) (by decide) (by decide)).2
     envNormalFail⟩

theorem executeBatchLoop_serial (benv : SubTask → ExecEnv) :
    ∀ gs : List (List SubTask),
      executeBatchLoop false benv gs = (gs.flatten.map (runTask benv), Except.ok ()) := by
  intro gs
  induction gs with
  | nil => rfl
  | cons g gs ih => simp [executeBatchLoop, ih]

/-- Claim C3: serial-path partial-failure tolerance.  (i) With parallel
mode off, `ExecuteBatch` executes every task of every wave in order — one
task's failure never prevents the rest of its wave or later waves from
running — and returns nil; (ii) any wave taking the serial branch runs
all of its tasks and hands control to the remaining waves unchanged,
whatever the failures; (iii) a non-nil batch error can only arise with
the parallel flag on, i.e. from the parallel branch. -/
theorem executeBatch_serial_tolerant (benv : SubTask → ExecEnv) (tasks : List SubTask) :
    ((executeBatch false benv tasks).1
        = ((analyzeTaskDependencies tasks).flatten).map (runTask benv) ∧
      (executeBatch false benv tasks).2 = Except.ok ()) ∧
    (∀ (par : Bool) (g : List SubTask) (gs : List (List SubTask)),
      (par && canParallelize g) = false →
      executeBatchLoop par benv (g :: gs)
        = ((g.map (runTask benv)) ++ (executeBatchLoop par benv gs).1,
            (executeBatchLoop par benv gs).2)) ∧
    ∀ (par : Bool) (e : String),
      (executeBatch par benv tasks).2 = Except.error e → par = true := by
  refine ⟨?_, ?_, ?_⟩
  · unfold executeBatch
    by_cases he : tasks.isEmpty
    · have htn : tasks = [] := by
        cases tasks with
        | nil => rfl
        | cons a l => cases he
      rw [if_pos he]
      subst htn
      exact ⟨rfl, rfl⟩
    · rw [if_neg he, executeBatchLoop_serial]
      exact ⟨rfl, rfl⟩
  · intro par g gs hser
    simp [executeBatchLoop, hser]
  · intro par e herr
    cases par with
    | true => rfl
    | false =>
      exfalso
      unfold executeBatch at herr
      by_cases he : tasks.isEmpty
      · rw [if_pos he] at herr
        cases herr
      · rw [if_neg he, executeBatchLoop_serial] at herr
        cases herr

/-- Witness for C3: with the middle of three independent tasks failing,
the serial batch still executes all three and returns nil; and a failing
parallel wave makes the batch error originate from the parallel flag. -/
theorem executeBatch_serial_tolerant_witness :
    (executeBatch false benvMidFail demoTasks3).2 = Except.ok () ∧
    executeBatchLoop false benvMidFail [demoTasks3]
      = ((demoTasks3.map (runTask benvMidFail)) ++ (executeBatchLoop false benvMidFail []).1,
          (executeBatchLoop false benvMidFail []).2) ∧
    (true : Bool) = true :=
  ⟨(executeBatch_serial_tolerant benvMidFail demoTasks3).1.2,
   (executeBatch_serial_tolerant benvMidFail demoTasks3).2.1 false demoTasks3 [] (by decide),
   (executeBatch_serial_tolerant benvAllFail [tA]).2.2 true _ rfl⟩

/-! ## Planner depth bound and parse fallback (Claims C7, C6) -/

/-- Claim C7: a `Plan` call at recursion depth at or beyond the Planning
Budget's length fails immediately with exactly the error
`max planning depth reached`, returns no task graph, and appends no
"started" planning record to the ledger — the depth check precedes the
ledger append (planner.go:36-38). -/
theorem taskPlannerPlan_depth_exceeded (maxSteps : List Nat) (currentDepth : Nat)
    (recordStart llm : Except String String) (decode : String → Option RawPlan)
    (freshId : Nat → String) (now : Nat)
    (h : maxSteps.length ≤ currentDepth) :
    taskPlannerPlan maxSteps currentDepth recordStart llm decode freshId now
      = (Except.error "max planning depth reached", []) := by
  unfold taskPlannerPlan
  rw [if_pos h]

/-- Witness for C7: with a Planning Budget of length 2, a `Plan` call at
depth 2 is rejected before any ledger write. -/
theorem taskPlannerPlan_depth_exceeded_witness :
    taskPlannerPlan [5, 3] 2 (Except.ok "rec1") (Except.ok "anything")
        (fun _ => none) (fun _ => "u") 0
      = (Except.error "max planning depth reached", []) :=
  taskPlannerPlan_depth_exceeded [5, 3] 2 (Except.ok "rec1") (Except.ok "anything")
    (fun _ => none) (fun _ => "u") 0 (by decide)

/-- Claim C6 counterexample: `TaskPlanner.Plan` (planner.go:70-74), one
of the two `Plan` implementations the claim's sources cite, surfaces a
parse error to the caller when the Oracle response contains no decodable
JSON, instead of falling back to a default plan. -/
theorem taskPlannerPlan_surfaces_parse_error :
    (taskPlannerPlan [5, 3] 0 (Except.ok "rec1") (Except.ok "no plan here")
        (fun _ => none) (fun _ => "u") 0).1
      = Except.error "failed to parse planning result: no JSON found in response" := by
  decide

theorem parsePlanningResponse_fault_corner
    (decode : String → Option PlanningResult) :
    parsePlanningResponse decode faultResponse = none := by
  unfold parsePlanningResponse
  rw [if_pos (show jsonSpanFaults faultResponse = true by decide)]

theorem intelligentPlan_fault_corner (decode : String → Option PlanningResult)
    (freshId : Nat → String) (now : Nat) (message : String) :
    intelligentPlan decode freshId now (Except.ok faultResponse) message = none := by
  simp only [intelligentPlan, parsePlanningResponse_fault_corner decode]

/-- Claim C6 (amended): the unparsable-response fallback holds for
`IntelligentTaskPlanner.Plan` only, and only on responses where the span
extraction actually returns — on any response whose parse step reports a
decode failure (rather than panicking on the out-of-range span slice,
the corner `jsonSpanFaults` marks) it surfaces no error and returns the
deterministic keyword-matched default plan, which always carries at
least one task; `TaskPlanner.Plan`, by contrast, returns a `failed to
parse planning result` error on undecodable responses. -/
theorem intelligentPlan_fallback (decode : String → Option PlanningResult)
    (freshId : Nat → String) (now : Nat) (content message : String)
    (h : parsePlanningResponse decode content = some none) :
    intelligentPlan decode freshId now (Except.ok content) message
      = some (Except.ok (createDefaultPlan freshId now message)) ∧
    1 ≤ (createDefaultPlan freshId now message).tasks.length := by
  constructor
  · simp only [intelligentPlan, h]
  · unfold createDefaultPlan
    split
    · simp
    · split
      · simp
      · simp

/-- Witness for the amended C6 at a brace-free Oracle response. -/
theorem intelligentPlan_fallback_witness :
    intelligentPlan (fun _ => none) (fun _ => "u") 0 (Except.ok "garbage") "hello"
      = some (Except.ok (createDefaultPlan (fun _ => "u") 0 "hello")) :=
  (intelligentPlan_fallback (fun _ => none) (fun _ => "u") 0 "garbage" "hello"
    (by decide)).1

/-! ## Optimizer idempotence (Claim C9) -/

theorem inferTaskType_ne_empty (process : String) : inferTaskType process ≠ "" := by
  simp only [inferTaskType]
  split
  · decide
  · split
    · decide
    · split <;> decide

theorem optimizeGo_cons (f : Nat → String) (now : Nat) (t : SubTask)
    (rest acc : List SubTask) (n : Nat) :
    optimizeGo f now (t :: rest) acc n =
      if t.description = "" then optimizeGo f now rest acc n
      else if acc.any (fun e => decide (e.description = t.description)) then
        optimizeGo f now rest acc n
      else
        optimizeGo f now rest
          (acc ++ [{ t with
                     id := if t.id = "" then f n else t.id,
                     state := if t.state = "" then "wait" else t.state,
                     type_ := if t.type_ = "" then inferTaskType t.process else t.type_,
                     createdAt := now, updatedAt := now }])
          (if t.id = "" then n + 1 else n) := rfl

theorem optimizeGo_wf (f : Nat → String) (now : Nat) (hf : ∀ m, f m ≠ "") :
    ∀ (l acc : List SubTask) (n : Nat),
      (∀ u ∈ acc, u.description ≠ "" ∧ u.id ≠ "" ∧ u.state ≠ "" ∧ u.type_ ≠ "" ∧
        u.createdAt = now ∧ u.updatedAt = now) →
      (acc.map SubTask.description).Nodup →
      (∀ u ∈ optimizeGo f now l acc n,
        u.description ≠ "" ∧ u.id ≠ "" ∧ u.state ≠ "" ∧ u.type_ ≠ "" ∧
        u.createdAt = now ∧ u.updatedAt = now) ∧
      ((optimizeGo f now l acc n).map SubTask.description).Nodup := by
  intro l
  induction l with
  | nil => intro acc n h1 h2; exact ⟨h1, h2⟩
  | cons t rest ih =>
    intro acc n h1 h2
    rw [optimizeGo_cons]
    by_cases hd : t.description = ""
    · rw [if_pos hd]; exact ih acc n h1 h2
    rw [if_neg hd]
    by_cases hany : acc.any (fun e => decide (e.description = t.description)) = true
    · rw [if_pos hany]; exact ih acc n h1 h2
    rw [if_neg hany]
    rw [Bool.not_eq_true, List.any_eq_false] at hany
    apply ih
    · intro u hu
      rcases List.mem_append.mp hu with h | h
      · exact h1 u h
      · rw [List.mem_singleton.mp h]
        refine ⟨hd, ?_, ?_, ?_, rfl, rfl⟩
        · show (if t.id = "" then f n else t.id) ≠ ""
          by_cases hid : t.id = ""
          · rw [if_pos hid]; exact hf n
          · rw [if_neg hid]; exact hid
        · show (if t.state = "" then "wait" else t.state) ≠ ""
          by_cases hst : t.state = ""
          · rw [if_pos hst]; decide
          · rw [if_neg hst]; exact hst
        · show (if t.type_ = "" then inferTaskType t.process else t.type_) ≠ ""
          by_cases hty : t.type_ = ""
          · rw [if_pos hty]; exact inferTaskType_ne_empty t.process
          · rw [if_neg hty]; exact hty
    · rw [List.map_append]
      refine List.Nodup.append h2 (List.nodup_singleton _) ?_
      intro d hda hdt
      obtain ⟨v, hv, hvd⟩ := List.mem_map.mp hda
      rw [List.map_singleton, List.mem_singleton] at hdt
      exact hany v hv (decide_eq_true (by rw [hvd, hdt]))

theorem restamp_eq_self {now : Nat} {u : SubTask}
    (h1 : u.createdAt = now) (h2 : u.updatedAt = now) : restamp now u = u := by
  cases u
  simp only [restamp] at *
  simp_all

theorem optimizeGo_restamp (f2 : Nat → String) (now2 : Nat) :
    ∀ (l acc : List SubTask) (n : Nat),
      (∀ u ∈ l, u.description ≠ "" ∧ u.id ≠ "" ∧ u.state ≠ "" ∧ u.type_ ≠ "") →
      ((l.map SubTask.description).Nodup) →
      (∀ u ∈ l, ∀ v ∈ acc, v.description ≠ u.description) →
      optimizeGo f2 now2 l acc n = acc ++ l.map (restamp now2) := by
  intro l
  induction l with
  | nil => intro acc n _ _ _; simp [optimizeGo]
  | cons t rest ih =>
    intro acc n h1 h2 h3
    have ht := h1 t (List.mem_cons_self t rest)
    have h2' := List.nodup_cons.mp
      (show (SubTask.description t :: rest.map SubTask.description).Nodup from h2)
    rw [optimizeGo_cons, if_neg ht.1]
    have hany : acc.any (fun e => decide (e.description = t.description)) = false := by
      rw [List.any_eq_false]
      intro v hv hvd
      exact h3 t (List.mem_cons_self t rest) v hv (of_decide_eq_true hvd)
    rw [if_neg (by rw [hany]; exact Bool.false_ne_true)]
    simp only [if_neg ht.2.1, if_neg ht.2.2.1, if_neg ht.2.2.2]
    have hstep : ({ t with
        id := t.id, state := t.state, type_ := t.type_,
        createdAt := now2, updatedAt := now2 } : SubTask) = restamp now2 t := rfl
    rw [hstep]
    have h3' : ∀ u ∈ rest, ∀ v ∈ acc ++ [restamp now2 t],
        v.description ≠ u.description := by
      intro u hu v hv
      rcases List.mem_append.mp hv with h | h
      · exact h3 u (List.mem_cons_of_mem t hu) v h
      · rw [List.mem_singleton.mp h]
        show t.description ≠ u.description
        intro heq
        exact h2'.1 (heq ▸ List.mem_map_of_mem SubTask.description hu)
    rw [ih (acc ++ [restamp now2 t]) n (fun u hu => h1 u (List.mem_cons_of_mem t hu))
      h2'.2 h3']
    simp

/-- Claim C9: optimizer idempotence.  A second `OptimizePlan`
application removes nothing further and changes no id, state or type —
with the wall clock unchanged it returns its input unchanged, and with a
later wall clock it only restamps `CreatedAt`/`UpdatedAt` on every entry
(exactly the caveat the claim notes).  The hypothesis `hf` records that
`uuid.New().String()` is never empty. -/
theorem optimizePlan_idempotent (f f2 : Nat → String) (now now2 : Nat)
    (tasks : List SubTask) (hf : ∀ m, f m ≠ "") :
    optimizePlan f2 now (optimizePlan f now tasks) = optimizePlan f now tasks ∧
    optimizePlan f2 now2 (optimizePlan f now tasks)
      = (optimizePlan f now tasks).map (restamp now2) := by
  have hwf := optimizeGo_wf f now hf tasks [] 0 (by simp) (by simp)
  have hgen : ∀ n2 : Nat,
      optimizePlan f2 n2 (optimizePlan f now tasks)
        = (optimizePlan f now tasks).map (restamp n2) := by
    intro n2
    exact optimizeGo_restamp f2 n2 (optimizePlan f now tasks) [] 0
      (fun u hu => ⟨(hwf.1 u hu).1, (hwf.1 u hu).2.1, (hwf.1 u hu).2.2.1,
        (hwf.1 u hu).2.2.2.1⟩)
      hwf.2 (by simp)
  refine ⟨?_, hgen now2⟩
  rw [hgen now]
  have : ∀ u ∈ optimizePlan f now tasks, restamp now u = u := fun u hu =>
    restamp_eq_self (hwf.1 u hu).2.2.2.2.1 (hwf.1 u hu).2.2.2.2.2
  rw [List.map_congr_left this]
  simp

/-- Witness for C9 on a list exercising dedup, empty-drop, id
generation and type inference. -/
theorem optimizePlan_idempotent_witness :
    optimizePlan (fun _ => "gen2") 9 (optimizePlan (fun _ => "gen") 9 demoOptTasks)
      = optimizePlan (fun _ => "gen") 9 demoOptTasks :=
  (optimizePlan_idempotent (fun _ => "gen") (fun _ => "gen2") 9 9 demoOptTasks
    (fun _ => by show ("gen" : String) ≠ ""; decide)).1

end GoAgent
